import Mathlib

/-!
Verification of the transcript renderer and session locator of the
`newprompt` command-line tool (`src/newprompt/cli.py`).

The development shallowly embeds the Python code:

* JSON values (`json.loads` results) become the inductive type `Json`;
  JSON numbers are modelled as integers (the logs under study contain no
  fractional numbers), and Python `dict`s become association lists with
  unique keys (the parser resolves duplicate keys last-wins, as Python does).
* Fallible Python code becomes `Except PyError`: the renderer can raise
  `AttributeError` (attribute access such as `.get` on a non-dict),
  `TypeError` (`len`/slicing/`in` on unsupported values) and `KeyError`
  (indexing a missing key), and the file layer can raise
  `FileNotFoundError`.
* Library calls (`json.loads`, `str.strip`, `datetime.fromisoformat`,
  `str.replace`, `sorted`, `os.path.join`) are modelled by executable Lean
  functions faithful to their behaviour on the inputs this program feeds
  them; `datetime.fromisoformat` is modelled on the common ISO-8601 subset
  `YYYY-MM-DD[<sep>HH:MM[:SS[.f{1,6}]][±HH:MM]]`.

All definitions are fuel-based or structurally recursive so that concrete
runs evaluate inside the kernel.
-/

/-- Errors a run of the embedded Python code can surface. -/
inductive PyError where
  | attributeError
  | typeError
  | keyError
  | fileNotFoundError
deriving DecidableEq

/-- JSON values as decoded by `json.loads`, with numbers restricted to
integers and objects as insertion-ordered association lists. -/
inductive Json where
  | null
  | bool (b : Bool)
  | num (n : Int)
  | str (s : String)
  | arr (xs : List Json)
  | obj (fields : List (String × Json))

/-- Python `j == s` for a literal string `s`: only a `str` value can
compare equal to a string (no cross-type equalities arise here). -/
def jsonEqStr (j : Json) (s : String) : Bool :=
  match j with
  | .str t => t = s
  | _ => false

/-- Python `x == s` where `x` may be `None` (a missing `dict.get`). -/
def optEqStr (j : Option Json) (s : String) : Bool :=
  match j with
  | some v => jsonEqStr v s
  | none => false

/-- Python `dict.get(k)`: first binding of `k` in the association list
(the JSON decoder keeps keys unique, so first = only). -/
def dictGet (fields : List (String × Json)) (k : String) : Option Json :=
  match fields with
  | [] => none
  | (k', v) :: rest => if k' = k then some v else dictGet rest k

/-- Insert with Python-`dict` semantics: an existing key keeps its
position and gets the new value, a new key is appended. -/
def insertAssoc (fields : List (String × Json)) (k : String) (v : Json) :
    List (String × Json) :=
  match fields with
  | [] => [(k, v)]
  | (k', v') :: rest =>
    if k' = k then (k', v) :: rest else (k', v') :: insertAssoc rest k v

/-- Python truthiness (`bool(x)`) on JSON-decoded values. -/
def truthy : Json → Bool
  | .null => false
  | .bool b => b
  | .num n => n != 0
  | .str s => !s.isEmpty
  | .arr xs => !xs.isEmpty
  | .obj fs => !fs.isEmpty

/-- Characters stripped by Python `str.strip()` (ASCII whitespace subset;
the logs contain no exotic Unicode whitespace). -/
def isPySpace (c : Char) : Bool :=
  c = ' ' || c = '\t' || c = '\n' || c = '\r' || c = '\x0b' || c = '\x0c'

/-- Python `str.strip()`. -/
def pyStrip (s : String) : String :=
  ⟨((s.data.dropWhile isPySpace).reverse.dropWhile isPySpace).reverse⟩

/-- Character-list prefix test. -/
def isPrefixC : List Char → List Char → Bool
  | [], _ => true
  | _ :: _, [] => false
  | a :: as, b :: bs => a = b && isPrefixC as bs

/-- Character-list substring test. -/
def containsC (needle : List Char) : List Char → Bool
  | [] => needle.isEmpty
  | c :: rest => isPrefixC needle (c :: rest) || containsC needle rest

/-- Python `needle in hay` on strings (substring containment). -/
def strContains (hay needle : String) : Bool :=
  containsC needle.data hay.data

/-- Python `sep.join(parts)`. -/
def joinSep (sep : String) : List String → String
  | [] => ""
  | [x] => x
  | x :: y :: rest => x ++ sep ++ joinSep sep (y :: rest)

/-- Python string slice `s[:n]`. -/
def strTake (s : String) (n : Nat) : String :=
  ⟨s.data.take n⟩

/-- Decimal digit character. -/
def digitChar (n : Nat) : Char :=
  Char.ofNat (48 + n)

/-- Hexadecimal digit character (lowercase, as Python `repr` uses). -/
def hexChar (n : Nat) : Char :=
  if n < 10 then Char.ofNat (48 + n) else Char.ofNat (87 + n)

/-- Two-digit zero-padded decimal (for values below 100). -/
def pad2 (n : Nat) : String :=
  ⟨[digitChar ((n / 10) % 10), digitChar (n % 10)]⟩

/-- Four-digit zero-padded decimal (for values below 10000). -/
def pad4 (n : Nat) : String :=
  ⟨[digitChar ((n / 1000) % 10), digitChar ((n / 100) % 10),
    digitChar ((n / 10) % 10), digitChar (n % 10)]⟩

/-- Decimal rendering of a natural number below 10^8, without leading
zeros (enough for every length/index this program prints). -/
def natDec (n : Nat) : String :=
  ⟨(List.range 8).reverse.foldl
    (fun acc i =>
      let d := (n / 10 ^ i) % 10
      if acc.isEmpty && d = 0 && i ≠ 0 then acc else acc ++ [digitChar d])
    []⟩

/-- Python `repr` body escaping for one character given the chosen quote. -/
def pyEscChar (quote c : Char) : List Char :=
  if c = '\\' then ['\\', '\\']
  else if c = quote then ['\\', quote]
  else if c = '\n' then ['\\', 'n']
  else if c = '\r' then ['\\', 'r']
  else if c = '\t' then ['\\', 't']
  else if c.toNat < 32 || c.toNat = 127 then
    ['\\', 'x', hexChar (c.toNat / 16), hexChar (c.toNat % 16)]
  else [c]

/-- Python `repr` of a string: single quotes unless the string contains a
single quote and no double quote. -/
def pyReprStr (s : String) : String :=
  let q : Char :=
    if s.data.contains '\'' && !(s.data.contains '"') then '"' else '\''
  ⟨q :: (s.data.flatMap (pyEscChar q)) ++ [q]⟩

/-- Python `repr` of an integer. -/
def intDec (n : Int) : String :=
  if n < 0 then "-" ++ natDec n.natAbs else natDec n.natAbs

mutual

/-- Python `repr` of a JSON-decoded value. -/
def pyRepr : Json → String
  | .null => "None"
  | .bool true => "True"
  | .bool false => "False"
  | .num n => intDec n
  | .str s => pyReprStr s
  | .arr xs => "[" ++ joinSep ", " (pyReprList xs) ++ "]"
  | .obj fs => "\x7b" ++ joinSep ", " (pyReprFields fs) ++ "\x7d"

/-- `repr` of each element of a list. -/
def pyReprList : List Json → List String
  | [] => []
  | j :: js => pyRepr j :: pyReprList js

/-- `repr` of each `key: value` pair of a dict. -/
def pyReprFields : List (String × Json) → List String
  | [] => []
  | (k, v) :: fs => (pyReprStr k ++ ": " ++ pyRepr v) :: pyReprFields fs

end

/-- Python `str()` of a JSON-decoded value, as f-string interpolation
applies it. -/
def pyStr : Json → String
  | .str s => s
  | j => pyRepr j

/-- JSON insignificant whitespace. -/
def skipWs (cs : List Char) : List Char :=
  cs.dropWhile (fun c => c = ' ' || c = '\t' || c = '\n' || c = '\r')

/-- Hexadecimal digit value. -/
def hexVal? (c : Char) : Option Nat :=
  if '0' ≤ c && c ≤ '9' then some (c.toNat - 48)
  else if 'a' ≤ c && c ≤ 'f' then some (c.toNat - 87)
  else if 'A' ≤ c && c ≤ 'F' then some (c.toNat - 70)
  else none

/-- Body of a JSON string literal after the opening quote, accumulating
decoded characters in reverse.  Control characters are rejected, the
standard escapes are decoded, and a `\uXXXX` escape becomes the code
point it denotes (surrogate-pair recombination is outside the modelled
subset; no input under study uses it). -/
def pStrBody (acc : List Char) : List Char → Option (String × List Char)
  | [] => none
  | '"' :: rest => some (⟨acc.reverse⟩, rest)
  | '\\' :: '"' :: rest => pStrBody ('"' :: acc) rest
  | '\\' :: '\\' :: rest => pStrBody ('\\' :: acc) rest
  | '\\' :: '/' :: rest => pStrBody ('/' :: acc) rest
  | '\\' :: 'b' :: rest => pStrBody ('\x08' :: acc) rest
  | '\\' :: 'f' :: rest => pStrBody ('\x0c' :: acc) rest
  | '\\' :: 'n' :: rest => pStrBody ('\n' :: acc) rest
  | '\\' :: 'r' :: rest => pStrBody ('\r' :: acc) rest
  | '\\' :: 't' :: rest => pStrBody ('\t' :: acc) rest
  | '\\' :: 'u' :: a :: b :: c :: d :: rest =>
    match hexVal? a, hexVal? b, hexVal? c, hexVal? d with
    | some ha, some hb, some hc, some hd =>
      pStrBody (Char.ofNat (((ha * 16 + hb) * 16 + hc) * 16 + hd) :: acc) rest
    | _, _, _, _ => none
  | '\\' :: _ => none
  | c :: rest => if c.toNat < 32 then none else pStrBody (c :: acc) rest

/-- Digit run to a natural number. -/
def digitsToNat (ds : List Char) : Nat :=
  ds.foldl (fun a c => a * 10 + (c.toNat - 48)) 0

/-- JSON number literal.  Fractional and exponent forms are outside the
modelled subset (the logs under study carry only integral numbers), so
they are rejected rather than decoded. -/
def pNum (cs : List Char) : Option (Json × List Char) :=
  let signed := match cs with
    | '-' :: r => (true, r)
    | _ => (false, cs)
  let ds := signed.2.takeWhile Char.isDigit
  let rest := signed.2.dropWhile Char.isDigit
  if ds.isEmpty then none
  else if ds.length > 1 && ds.headD '0' = '0' then none
  else
    match rest with
    | '.' :: _ => none
    | 'e' :: _ => none
    | 'E' :: _ => none
    | _ =>
      let n : Int := Int.ofNat (digitsToNat ds)
      some (.num (if signed.1 then -n else n), rest)

/-- Parser modes: a value, the items of an array after `[`, or the
members of an object after `\x7b`. -/
inductive PMode where
  | value
  | arrItems (acc : List Json)
  | objItems (acc : List (String × Json))

/-- Fuelled recursive-descent JSON parser (`json.loads` grammar on the
modelled subset). -/
def pstep : Nat → PMode → List Char → Option (Json × List Char)
  | 0, _, _ => none
  | n + 1, .value, cs =>
    match skipWs cs with
    | '"' :: rest => (pStrBody [] rest).map (fun p => (.str p.1, p.2))
    | 't' :: 'r' :: 'u' :: 'e' :: rest => some (.bool true, rest)
    | 'f' :: 'a' :: 'l' :: 's' :: 'e' :: rest => some (.bool false, rest)
    | 'n' :: 'u' :: 'l' :: 'l' :: rest => some (.null, rest)
    | '[' :: rest =>
      match skipWs rest with
      | ']' :: r2 => some (.arr [], r2)
      | r2 => pstep n (.arrItems []) r2
    | '\x7b' :: rest =>
      match skipWs rest with
      | '\x7d' :: r2 => some (.obj [], r2)
      | r2 => pstep n (.objItems []) r2
    | cs' => pNum cs'
  | n + 1, .arrItems acc, cs =>
    match pstep n .value cs with
    | none => none
    | some (v, r) =>
      match skipWs r with
      | ',' :: r2 => pstep n (.arrItems (acc ++ [v])) r2
      | ']' :: r2 => some (.arr (acc ++ [v]), r2)
      | _ => none
  | n + 1, .objItems acc, cs =>
    match skipWs cs with
    | '"' :: rest =>
      match pStrBody [] rest with
      | none => none
      | some (k, r) =>
        match skipWs r with
        | ':' :: r2 =>
          match pstep n .value r2 with
          | none => none
          | some (v, r3) =>
            match skipWs r3 with
            | ',' :: r4 => pstep n (.objItems (insertAssoc acc k v)) r4
            | '\x7d' :: r4 => some (.obj (insertAssoc acc k v), r4)
            | _ => none
        | _ => none
    | _ => none

/-- Python `json.loads`, returning `none` where Python raises
`json.JSONDecodeError`. -/
def json_loads? (s : String) : Option Json :=
  match pstep (2 * s.length + 4) .value s.data with
  | some (v, rest) => if (skipWs rest).isEmpty then some v else none
  | none => none

/-- Wall-clock fields of a parsed `datetime` (the code formats the parsed
fields directly; the UTC offset is validated but never applied). -/
structure PyDT where
  year : Nat
  month : Nat
  day : Nat
  hour : Nat
  minute : Nat
  second : Nat

/-- Two decimal digits. -/
def d2? : List Char → Option (Nat × List Char)
  | a :: b :: rest =>
    if a.isDigit && b.isDigit
    then some ((a.toNat - 48) * 10 + (b.toNat - 48), rest)
    else none
  | _ => none

/-- Four decimal digits. -/
def d4? : List Char → Option (Nat × List Char)
  | a :: b :: c :: d :: rest =>
    if a.isDigit && b.isDigit && c.isDigit && d.isDigit
    then some (((a.toNat - 48) * 1000 + (b.toNat - 48) * 100 +
                (c.toNat - 48) * 10 + (d.toNat - 48)), rest)
    else none
  | _ => none

/-- Gregorian leap year. -/
def isLeap (y : Nat) : Bool :=
  y % 4 = 0 && (y % 100 ≠ 0 || y % 400 = 0)

/-- Days in a month. -/
def daysInMonth (y mo : Nat) : Nat :=
  if mo = 2 then (if isLeap y then 29 else 28)
  else if mo = 4 || mo = 6 || mo = 9 || mo = 11 then 30
  else 31

/-- Magnitude of a UTC-offset suffix (`HH:MM` after the sign) followed by
end of input; validated but discarded. -/
def parseOffsetTail (r : List Char) : Option Unit :=
  match d2? r with
  | some (oh, ':' :: r2) =>
    match d2? r2 with
    | some (om, []) => if oh ≤ 23 && om ≤ 59 then some () else none
    | _ => none
  | _ => none

/-- UTC-offset suffix (`±HH:MM`) followed by end of input, or just end of
input. -/
def parseOffsetEnd : List Char → Option Unit
  | [] => some ()
  | '+' :: r => parseOffsetTail r
  | '-' :: r => parseOffsetTail r
  | _ => none

/-- Optional fractional seconds (1 to 6 digits) then offset/end. -/
def parseFracOffsetEnd : List Char → Option Unit
  | '.' :: r =>
    let ds := r.takeWhile Char.isDigit
    if 1 ≤ ds.length && ds.length ≤ 6
    then parseOffsetEnd (r.dropWhile Char.isDigit)
    else none
  | ',' :: r =>
    let ds := r.takeWhile Char.isDigit
    if 1 ≤ ds.length && ds.length ≤ 6
    then parseOffsetEnd (r.dropWhile Char.isDigit)
    else none
  | r => parseOffsetEnd r

/-- Time-of-day part `HH[:MM[:SS[.ffffff]]][±HH:MM]` to exhaustion. -/
def parseTime (cs : List Char) : Option (Nat × Nat × Nat) :=
  match d2? cs with
  | none => none
  | some (h, r) =>
    match r with
    | ':' :: r2 =>
      match d2? r2 with
      | none => none
      | some (mi, r3) =>
        match r3 with
        | ':' :: r4 =>
          match d2? r4 with
          | none => none
          | some (sec, r5) => (parseFracOffsetEnd r5).map (fun _ => (h, mi, sec))
        | _ => (parseOffsetEnd r3).map (fun _ => (h, mi, 0))
    | _ => (parseOffsetEnd r).map (fun _ => (h, 0, 0))

/-- Field validation done by `datetime`. -/
def validDT (y mo d h mi sec : Nat) : Bool :=
  1 ≤ y && 1 ≤ mo && mo ≤ 12 && 1 ≤ d && d ≤ daysInMonth y mo &&
  h ≤ 23 && mi ≤ 59 && sec ≤ 59

/-- Python `datetime.fromisoformat` on the modelled ISO-8601 subset
`YYYY-MM-DD[<any sep>HH[:MM[:SS[.f\x7b1,6\x7d]]][±HH:MM]]`. -/
def parseIso (s : String) : Option PyDT :=
  match d4? s.data with
  | some (y, '-' :: r2) =>
    match d2? r2 with
    | some (mo, '-' :: r4) =>
      match d2? r4 with
      | some (d, r5) =>
        match r5 with
        | [] => if validDT y mo d 0 0 0 then some ⟨y, mo, d, 0, 0, 0⟩ else none
        | _ :: r6 =>
          match parseTime r6 with
          | some (h, mi, sec) =>
            if validDT y mo d h mi sec then some ⟨y, mo, d, h, mi, sec⟩ else none
          | none => none
      | none => none
    | _ => none
  | _ => none

/-- `strftime("%Y-%m-%d %H:%M:%S UTC")` on the parsed fields. -/
def strftimeUTC (dt : PyDT) : String :=
  pad4 dt.year ++ "-" ++ pad2 dt.month ++ "-" ++ pad2 dt.day ++ " " ++
  pad2 dt.hour ++ ":" ++ pad2 dt.minute ++ ":" ++ pad2 dt.second ++ " UTC"

/-- Python `str.replace` (all occurrences), fuelled by the input length. -/
def replaceC (pat rep : List Char) : Nat → List Char → List Char
  | 0, cs => cs
  | _ + 1, [] => []
  | n + 1, c :: rest =>
    if isPrefixC pat (c :: rest) then
      rep ++ replaceC pat rep n (List.drop pat.length (c :: rest))
    else c :: replaceC pat rep n rest

/-- Python `s.replace(pat, rep)` for a non-empty `pat`. -/
def pyReplace (s pat rep : String) : String :=
  if pat.isEmpty then s else ⟨replaceC pat.data rep.data s.length s.data⟩

/-- `_format_timestamp` on an actual string: replace `Z` by `+00:00`,
parse as ISO-8601 and format, falling back to the argument on failure. -/
def format_timestamp_str (ts : String) : String :=
  match parseIso (pyReplace ts "Z" "+00:00") with
  | some dt => strftimeUTC dt
  | none => ts

/-- `_format_timestamp` as observed through f-string interpolation: a
non-string argument makes `ts.replace` raise `AttributeError`, which the
function catches, returning the argument unchanged; the f-string then
applies `str()` to it. -/
def format_timestamp (j : Json) : String :=
  match j with
  | .str s => format_timestamp_str s
  | j => pyStr j

/-- Python `key in container`: key membership for a dict, element
membership for a list, substring test for a string, `TypeError`
otherwise. -/
def pyIn (key : String) (j : Json) : Except PyError Bool :=
  match j with
  | .obj fs => .ok (fs.any (fun kv => kv.1 = key))
  | .arr xs => .ok (xs.any (fun v => jsonEqStr v key))
  | .str s => .ok (strContains s key)
  | _ => .error .typeError

/-- Python `container[key]` for a string key: dict lookup (`KeyError` when
missing), `TypeError` on any non-dict. -/
def pyIndexStr (j : Json) (key : String) : Except PyError Json :=
  match j with
  | .obj fs =>
    match dictGet fs key with
    | some v => .ok v
    | none => .error .keyError
  | _ => .error .typeError

/-- Python `len`: defined for strings (code points), lists and dicts. -/
def pyLen (j : Json) : Except PyError Nat :=
  match j with
  | .str s => .ok s.length
  | .arr xs => .ok xs.length
  | .obj fs => .ok fs.length
  | _ => .error .typeError

/-- Python `str(x[:n])`: slices a string or list; a dict cannot be
sliced (`TypeError: unhashable type`). -/
def pySliceStrOf (j : Json) (n : Nat) : Except PyError String :=
  match j with
  | .str s => .ok (strTake s n)
  | .arr xs => .ok (pyStr (.arr (xs.take n)))
  | _ => .error .typeError

/-- Summary line `> Used tool: **<name>**(<detail with backticks>)`. -/
def toolLine (name : Json) (detail : String) : String :=
  "> Used tool: **" ++ pyStr name ++ "**(`" ++ detail ++ "`)"

/-- Summary line without detail parentheses. -/
def toolLineBare (name : Json) : String :=
  "> Used tool: **" ++ pyStr name ++ "**"

/-- `_format_tool_use`: pick the first present key among `file_path`,
`command` (truncated to 80 characters when longer), `pattern`, `query`;
with none of them, emit only the action name. -/
def format_tool_use (block : Json) : Except PyError String :=
  match block with
  | .obj bf =>
    let name := (dictGet bf "name").getD (.str "Unknown")
    let inp := (dictGet bf "input").getD (.obj [])
    match pyIn "file_path" inp with
    | .error e => .error e
    | .ok true =>
      match pyIndexStr inp "file_path" with
      | .error e => .error e
      | .ok v => .ok (toolLine name (pyStr v))
    | .ok false =>
      match pyIn "command" inp with
      | .error e => .error e
      | .ok true =>
        match pyIndexStr inp "command" with
        | .error e => .error e
        | .ok cmd =>
          match pyLen cmd with
          | .error e => .error e
          | .ok len =>
            if len > 80 then
              match pySliceStrOf cmd 80 with
              | .error e => .error e
              | .ok d => .ok (toolLine name d)
            else .ok (toolLine name (pyStr cmd))
      | .ok false =>
        match pyIn "pattern" inp with
        | .error e => .error e
        | .ok true =>
          match pyIndexStr inp "pattern" with
          | .error e => .error e
          | .ok v => .ok (toolLine name (pyStr v))
        | .ok false =>
          match pyIn "query" inp with
          | .error e => .error e
          | .ok true =>
            match pyIndexStr inp "query" with
            | .error e => .error e
            | .ok v => .ok (toolLine name (pyStr v))
          | .ok false => .ok (toolLineBare name)
  | _ => .error .attributeError

/-- Output contributed by one content block of an `assistant` record. -/
def blockPart (b : Json) : Except PyError (List String) :=
  match b with
  | .obj bf =>
    let bt := dictGet bf "type"
    if optEqStr bt "text" then
      let t := (dictGet bf "text").getD (.str "")
      .ok (if truthy t && !jsonEqStr t "(no content)"
           then ["\n" ++ pyStr t ++ "\n"] else [])
    else if optEqStr bt "tool_use" then
      match format_tool_use (.obj bf) with
      | .error e => .error e
      | .ok line => .ok ["\n" ++ line ++ "\n"]
    else .ok []
  | _ => .ok []

/-- Output contributed by a list of content blocks, in order. -/
def blockParts : List Json → Except PyError (List String)
  | [] => .ok []
  | b :: bs =>
    match blockPart b with
    | .error e => .error e
    | .ok ps =>
      match blockParts bs with
      | .error e => .error e
      | .ok rest => .ok (ps ++ rest)

/-- Formatted timestamp of a record: empty for a falsy `timestamp` field,
else `_format_timestamp` of it. -/
def entryTs (ef : List (String × Json)) : String :=
  let timestamp := (dictGet ef "timestamp").getD (.str "")
  if truthy timestamp then format_timestamp timestamp else ""

/-- Output contributed by one decoded log record (`entry` in the loop of
`jsonl_to_markdown`).  A non-dict record raises `AttributeError` at
`entry.get`, exactly as the Python does. -/
def entryParts (entry : Json) : Except PyError (List String) :=
  match entry with
  | .obj ef =>
    let et := dictGet ef "type"
    if optEqStr et "summary" || optEqStr et "file-history-snapshot" then .ok []
    else
      let tsStr := entryTs ef
      if optEqStr et "user" then
        match (dictGet ef "message").getD (.obj []) with
        | .obj mf =>
          match (dictGet mf "content").getD (.str "") with
          | .str s =>
            .ok (if s.isEmpty then []
                 else ["\n## User\n*" ++ tsStr ++ "*\n\n" ++ s ++ "\n"])
          | _ => .ok []
        | _ => .error .attributeError
      else if optEqStr et "assistant" then
        match (dictGet ef "message").getD (.obj []) with
        | .obj mf =>
          match (dictGet mf "content").getD (.arr []) with
          | .arr blocks =>
            match blockParts blocks with
            | .error e => .error e
            | .ok bps =>
              .ok (if bps.isEmpty then []
                   else ("\n## Assistant\n*" ++ tsStr ++ "*\n") :: bps)
          | _ => .ok []
        | _ => .error .attributeError
      else .ok []
  | _ => .error .attributeError

/-- Output contributed by one raw line: strip, skip if empty, decode,
skip silently on a decode failure, else process the record. -/
def lineParts (line : String) : Except PyError (List String) :=
  let t := pyStrip line
  if t = "" then .ok []
  else
    match json_loads? t with
    | none => .ok []
    | some entry => entryParts entry

/-- Concatenated contributions of all lines, stopping at the first
uncaught exception. -/
def docParts : List String → Except PyError (List String)
  | [] => .ok []
  | l :: ls =>
    match lineParts l with
    | .error e => .error e
    | .ok ps =>
      match docParts ls with
      | .error e => .error e
      | .ok rest => .ok (ps ++ rest)

/-- `jsonl_to_markdown` on the sequence of raw lines of the log file:
a `# Chat History` header part followed by every line's parts, joined
with newlines. -/
def jsonl_to_markdown (lines : List String) : Except PyError String :=
  match docParts lines with
  | .error e => .error e
  | .ok ps => .ok (joinSep "\n" ("# Chat History\n" :: ps))

/-- Lexicographic strict order on character lists (how Python compares
strings: by code point). -/
def listLtB : List Char → List Char → Bool
  | [], [] => false
  | [], _ :: _ => true
  | _ :: _, [] => false
  | a :: as, b :: bs =>
    if a.toNat < b.toNat then true
    else if b.toNat < a.toNat then false
    else listLtB as bs

/-- Python `a < b` on strings. -/
def strLtB (a b : String) : Bool :=
  listLtB a.data b.data

/-- One directory in a tiny filesystem model: file path to contents. -/
def readFile (files : List (String × String)) (path : String) :
    Except PyError String :=
  match files.find? (fun f => f.1 = path) with
  | some f => .ok f.2
  | none => .error .fileNotFoundError

/-- Splitting file contents into lines (separators dropped; the renderer
strips each line anyway, so dropped separators are immaterial). -/
def splitLinesGo (acc : List Char) : List Char → List String
  | [] => [⟨acc.reverse⟩]
  | '\n' :: rest => (⟨acc.reverse⟩ : String) :: splitLinesGo [] rest
  | c :: rest => splitLinesGo (c :: acc) rest

/-- Lines of a file's contents. -/
def splitLines (s : String) : List String :=
  splitLinesGo [] s.data

/-- `jsonl_to_markdown` from the file system: `open` raises
`FileNotFoundError` for an absent path, else the lines are rendered. -/
def jsonl_to_markdown_file (files : List (String × String)) (path : String) :
    Except PyError String :=
  match readFile files path with
  | .error e => .error e
  | .ok contents => jsonl_to_markdown (splitLines contents)

/-- One entry of the history directory as `find_session` observes it:
its name, whether it is a subdirectory, and the contents of its
`.session_id` marker file when that file exists. -/
structure SessionEntry where
  name : String
  isDir : Bool
  sessionId : Option String

/-- First character test. -/
def strStartsWithC (s : String) (c : Char) : Bool :=
  s.data.head? = some c

/-- Last character test. -/
def strEndsWithC (s : String) (c : Char) : Bool :=
  s.data.getLast? = some c

/-- `os.path.join` for one component. -/
def ospath_join (a b : String) : String :=
  if strStartsWithC b '/' then b
  else if a = "" || strEndsWithC a '/' then a ++ b
  else a ++ "/" ++ b

/-- Insertion step of `sorted(entries, reverse=True)`: descending by
name, stable for equal names. -/
def insertDesc (e : SessionEntry) : List SessionEntry → List SessionEntry
  | [] => [e]
  | x :: xs => if strLtB x.name e.name then e :: x :: xs else x :: insertDesc e xs

/-- `sorted(entries, reverse=True)` on directory entries. -/
def sortDesc : List SessionEntry → List SessionEntry
  | [] => []
  | e :: es => insertDesc e (sortDesc es)

/-- Exact-name tier predicate (`entry == query` on subdirectories). -/
def tier1P (query : String) (e : SessionEntry) : Bool :=
  e.isDir && e.name = query

/-- Substring tier predicate (`query in entry` on subdirectories). -/
def tier2P (query : String) (e : SessionEntry) : Bool :=
  e.isDir && strContains e.name query

/-- Identifier tier predicate: a `.session_id` file exists and its
stripped contents equal the query (no subdirectory check here, exactly
as in the code). -/
def tier3P (query : String) (e : SessionEntry) : Bool :=
  match e.sessionId with
  | some raw => pyStrip raw = query
  | none => false

/-- Result of a directory-tier match: stripped marker contents paired
with the directory, or no identifier with the directory when the marker
file is missing. -/
def sidResult (history_dir : String) (e : SessionEntry) :
    Option String × Option String :=
  match e.sessionId with
  | some raw => (some (pyStrip raw), some (ospath_join history_dir e.name))
  | none => (none, some (ospath_join history_dir e.name))

/-- `find_session(query, history_dir)`: `listing` is the state of the
history directory, `none` when `os.path.isdir` fails. -/
def find_session (query history_dir : String)
    (listing : Option (List SessionEntry)) : Option String × Option String :=
  match listing with
  | none => (none, none)
  | some es =>
    let entries := sortDesc es
    match entries.find? (tier1P query) with
    | some e => sidResult history_dir e
    | none =>
      match entries.find? (tier2P query) with
      | some e => sidResult history_dir e
      | none =>
        match entries.find? (tier3P query) with
        | some e =>
          match e.sessionId with
          | some raw => (some (pyStrip raw), some (ospath_join history_dir e.name))
          | none => (none, none)
        | none => (none, none)

theorem listLtB_irrefl (a : List Char) : listLtB a a = false := by
  induction a with
  | nil => rfl
  | cons c cs ih => simp [listLtB, ih]

theorem listLtB_asymm : ∀ {a b : List Char},
    listLtB a b = true → listLtB b a = false := by
  intro a
  induction a with
  | nil =>
    intro b h
    cases b with
    | nil => simp [listLtB] at h
    | cons d ds => rfl
  | cons c cs ih =>
    intro b h
    cases b with
    | nil => simp [listLtB] at h
    | cons d ds =>
      simp only [listLtB] at h ⊢
      by_cases h1 : c.toNat < d.toNat
      · have h2 : ¬ d.toNat < c.toNat := by omega
        simp [h1, h2]
      · by_cases h2 : d.toNat < c.toNat
        · simp [h1, h2] at h
        · simp only [h1, h2, if_false] at h
          simp [h1, h2, ih h]

theorem listLtB_lt_of_lt_of_not_lt : ∀ {e y x : List Char},
    listLtB e y = true → listLtB x y = false → listLtB e x = true := by
  intro e
  induction e with
  | nil =>
    intro y x h1 h2
    cases y with
    | nil => simp [listLtB] at h1
    | cons b bs =>
      cases x with
      | nil => simp [listLtB] at h2
      | cons c cs => rfl
  | cons a as ih =>
    intro y x h1 h2
    cases y with
    | nil => simp [listLtB] at h1
    | cons b bs =>
      cases x with
      | nil => simp [listLtB] at h2
      | cons c cs =>
        simp only [listLtB] at h1 h2 ⊢
        by_cases hab : a.toNat < b.toNat
        · by_cases hcb : c.toNat < b.toNat
          · simp [hcb] at h2
          · by_cases hbc : b.toNat < c.toNat
            · have : a.toNat < c.toNat := by omega
              simp [this]
            · have : ¬ a.toNat < c.toNat ∨ a.toNat < c.toNat := by omega
              have hac : a.toNat < c.toNat := by omega
              simp [hac]
        · by_cases hba : b.toNat < a.toNat
          · simp [hab, hba] at h1
          · by_cases hcb : c.toNat < b.toNat
            · simp [hcb] at h2
            · by_cases hbc : b.toNat < c.toNat
              · have hac : a.toNat < c.toNat := by omega
                simp [hac]
              · have hac1 : ¬ a.toNat < c.toNat := by omega
                have hac2 : ¬ c.toNat < a.toNat := by omega
                simp only [hab, hba, if_false] at h1
                simp only [hcb, hbc, if_false] at h2
                simp [hac1, hac2, ih h1 h2]

theorem char_eq_of_toNat_eq {c d : Char} (h : c.toNat = d.toNat) : c = d := by
  have := congrArg Char.ofNat h
  rwa [Char.ofNat_toNat, Char.ofNat_toNat] at this

theorem listLtB_eq_of_not_lt : ∀ {a b : List Char},
    listLtB a b = false → listLtB b a = false → a = b := by
  intro a
  induction a with
  | nil =>
    intro b h1 h2
    cases b with
    | nil => rfl
    | cons d ds => simp [listLtB] at h1
  | cons c cs ih =>
    intro b h1 h2
    cases b with
    | nil => simp [listLtB] at h2
    | cons d ds =>
      simp only [listLtB] at h1 h2
      by_cases hcd : c.toNat < d.toNat
      · simp [hcd] at h1
      · by_cases hdc : d.toNat < c.toNat
        · simp [hdc, hcd] at h2
        · simp only [hcd, hdc, if_false] at h1 h2
          have hc : c = d := char_eq_of_toNat_eq (by omega)
          rw [hc, ih h1 h2]

theorem strLtB_irrefl (a : String) : strLtB a a = false :=
  listLtB_irrefl a.data

theorem strLtB_asymm {a b : String} (h : strLtB a b = true) :
    strLtB b a = false :=
  listLtB_asymm h

theorem strLtB_lt_of_lt_of_not_lt {e y x : String} (h1 : strLtB e y = true)
    (h2 : strLtB x y = false) : strLtB e x = true :=
  listLtB_lt_of_lt_of_not_lt h1 h2

theorem strLtB_eq_of_not_lt {a b : String} (h1 : strLtB a b = false)
    (h2 : strLtB b a = false) : a = b := by
  cases a with
  | mk da =>
    cases b with
    | mk db => exact congrArg String.mk (listLtB_eq_of_not_lt h1 h2)

/-- Descending sortedness by name: every earlier entry's name is not
lexicographically smaller than any later one's. -/
def sortedDesc (l : List SessionEntry) : Prop :=
  List.Pairwise (fun a b => strLtB a.name b.name = false) l

theorem mem_insertDesc {y e : SessionEntry} :
    ∀ {l : List SessionEntry}, y ∈ insertDesc e l ↔ y = e ∨ y ∈ l := by
  intro l
  induction l with
  | nil => simp [insertDesc]
  | cons x xs ih =>
    simp only [insertDesc]
    cases h : strLtB x.name e.name with
    | true =>
      simp only [if_true, List.mem_cons]
      try tauto
    | false =>
      simp only [Bool.false_eq_true, if_false, List.mem_cons, ih]
      try tauto

theorem insertDesc_perm (e : SessionEntry) :
    ∀ (l : List SessionEntry), List.Perm (insertDesc e l) (e :: l) := by
  intro l
  induction l with
  | nil => exact List.Perm.refl _
  | cons x xs ih =>
    simp only [insertDesc]
    cases h : strLtB x.name e.name with
    | true => exact List.Perm.refl _
    | false =>
      simp only [Bool.false_eq_true, if_false]
      exact (ih.cons x).trans (List.Perm.swap e x xs)

theorem sortDesc_perm : ∀ (l : List SessionEntry), List.Perm (sortDesc l) l := by
  intro l
  induction l with
  | nil => exact List.Perm.refl _
  | cons e es ih => exact (insertDesc_perm e (sortDesc es)).trans (ih.cons e)

theorem insertDesc_sorted {e : SessionEntry} :
    ∀ {l : List SessionEntry}, sortedDesc l → sortedDesc (insertDesc e l) := by
  intro l
  induction l with
  | nil =>
    intro _
    simp [insertDesc, sortedDesc]
  | cons x xs ih =>
    intro h
    unfold sortedDesc at h
    rw [List.pairwise_cons] at h
    obtain ⟨hxall, hxs⟩ := h
    simp only [insertDesc]
    cases hlt : strLtB x.name e.name with
    | true =>
      simp only [if_true]
      unfold sortedDesc
      rw [List.pairwise_cons]
      refine ⟨?_, List.pairwise_cons.mpr ⟨hxall, hxs⟩⟩
      intro y hy
      rcases List.mem_cons.mp hy with rfl | hy'
      · exact strLtB_asymm hlt
      · cases he : strLtB e.name y.name with
        | false => rfl
        | true =>
          have := strLtB_lt_of_lt_of_not_lt he (hxall y hy')
          rw [strLtB_asymm hlt] at this
          exact absurd this (by simp)
    | false =>
      simp only [Bool.false_eq_true, if_false]
      unfold sortedDesc
      rw [List.pairwise_cons]
      refine ⟨?_, ih hxs⟩
      intro y hy
      rcases mem_insertDesc.mp hy with rfl | hy'
      · exact hlt
      · exact hxall y hy'

theorem sortDesc_sorted : ∀ (l : List SessionEntry), sortedDesc (sortDesc l) := by
  intro l
  induction l with
  | nil => simp [sortDesc, sortedDesc]
  | cons e es ih => exact insertDesc_sorted ih

theorem find?_max_of_sorted {p : SessionEntry → Bool} :
    ∀ {l : List SessionEntry}, sortedDesc l → l.find? p = some x →
      ∀ y ∈ l, p y = true → strLtB x.name y.name = false := by
  intro l
  induction l with
  | nil => intro _ h; simp [List.find?] at h
  | cons a t ih =>
    intro hs hf y hy hpy
    rw [sortedDesc, List.pairwise_cons] at hs
    obtain ⟨hall, ht⟩ := hs
    by_cases hpa : p a = true
    · rw [List.find?_cons_of_pos _ hpa] at hf
      injection hf with hf
      subst hf
      rcases List.mem_cons.mp hy with rfl | hy'
      · exact strLtB_irrefl _
      · exact hall y hy'
    · rw [List.find?_cons_of_neg _ (by simp [hpa])] at hf
      rcases List.mem_cons.mp hy with rfl | hy'
      · exact absurd hpy hpa
      · exact ih ht hf y hy' hpy

theorem find?_eq_some_of_unique {p : SessionEntry → Bool} {x : SessionEntry} :
    ∀ {l : List SessionEntry}, x ∈ l → p x = true →
      (∀ y ∈ l, p y = true → y = x) → l.find? p = some x := by
  intro l
  induction l with
  | nil => intro h; simp at h
  | cons a t ih =>
    intro hm hp huniq
    by_cases hpa : p a = true
    · rw [List.find?_cons_of_pos _ hpa]
      rw [huniq a (List.mem_cons_self a t) hpa]
    · rw [List.find?_cons_of_neg _ (by simp [hpa])]
      rcases List.mem_cons.mp hm with rfl | hm'
      · exact absurd hp hpa
      · exact ih hm' hp (fun y hy hpy => huniq y (List.mem_cons_of_mem a hy) hpy)

theorem nodupName_inj :
    ∀ {l : List SessionEntry}, (l.map SessionEntry.name).Nodup →
      ∀ {a b : SessionEntry}, a ∈ l → b ∈ l → a.name = b.name → a = b := by
  intro l
  induction l with
  | nil => intro _ a b h; simp at h
  | cons e t ih =>
    intro hnd a b ha hb hab
    rw [List.map_cons, List.nodup_cons] at hnd
    obtain ⟨hnotin, hnd'⟩ := hnd
    rcases List.mem_cons.mp ha with rfl | ha' <;>
      rcases List.mem_cons.mp hb with rfl | hb'
    · rfl
    · exact absurd (List.mem_map.mpr ⟨b, hb', hab.symm⟩) hnotin
    · exact absurd (List.mem_map.mpr ⟨a, ha', hab⟩) hnotin
    · exact ih hnd' ha' hb' hab

theorem find_session_exact {q dir : String} {es : List SessionEntry}
    {e : SessionEntry} (hnd : (es.map SessionEntry.name).Nodup) (he : e ∈ es)
    (hd : e.isDir = true) (hn : e.name = q) :
    find_session q dir (some es) = sidResult dir e := by
  have hperm := sortDesc_perm es
  have hmem : e ∈ sortDesc es := hperm.mem_iff.mpr he
  have hp : tier1P q e = true := by simp [tier1P, hd, hn]
  have hfind : (sortDesc es).find? (tier1P q) = some e := by
    apply find?_eq_some_of_unique hmem hp
    intro y hy hyp
    have hy' : y ∈ es := hperm.mem_iff.mp hy
    have hyn : y.name = q := by
      simp only [tier1P, Bool.and_eq_true, decide_eq_true_eq] at hyp
      exact hyp.2
    exact nodupName_inj hnd hy' he (hyn.trans hn.symm)
  simp [find_session, hfind]

theorem find_session_snd_of_exact {q dir : String} {es : List SessionEntry}
    (hex : ∃ e, e ∈ es ∧ e.isDir = true ∧ e.name = q) :
    (find_session q dir (some es)).2 = some (ospath_join dir q) := by
  obtain ⟨e, he, hd, hn⟩ := hex
  have hmem : e ∈ sortDesc es := (sortDesc_perm es).mem_iff.mpr he
  have hsome : ((sortDesc es).find? (tier1P q)).isSome := by
    rw [List.find?_isSome]
    exact ⟨e, hmem, by simp [tier1P, hd, hn]⟩
  obtain ⟨x, hx⟩ := Option.isSome_iff_exists.mp hsome
  have hpx := List.find?_some hx
  have hxn : x.name = q := by
    simp only [tier1P, Bool.and_eq_true, decide_eq_true_eq] at hpx
    exact hpx.2
  simp only [find_session, hx]
  cases hsid : x.sessionId <;> simp [sidResult, hsid, hxn]

theorem find_session_tier2_max {q dir : String} {es : List SessionEntry}
    {w : SessionEntry} (hnd : (es.map SessionEntry.name).Nodup)
    (hno1 : ∀ e ∈ es, tier1P q e = false)
    (hw : w ∈ es) (hwp : tier2P q w = true)
    (hmax : ∀ x ∈ es, tier2P q x = true → strLtB w.name x.name = false) :
    find_session q dir (some es) = sidResult dir w := by
  have hperm := sortDesc_perm es
  have h1 : (sortDesc es).find? (tier1P q) = none := by
    rw [List.find?_eq_none]
    intro x hx
    simp [hno1 x (hperm.mem_iff.mp hx)]
  have hsome : ((sortDesc es).find? (tier2P q)).isSome := by
    rw [List.find?_isSome]
    exact ⟨w, hperm.mem_iff.mpr hw, hwp⟩
  obtain ⟨x, hx⟩ := Option.isSome_iff_exists.mp hsome
  have hpx := List.find?_some hx
  have hxes : x ∈ es := hperm.mem_iff.mp (List.mem_of_find?_eq_some hx)
  have hxmax : strLtB x.name w.name = false :=
    find?_max_of_sorted (sortDesc_sorted es) hx w (hperm.mem_iff.mpr hw) hwp
  have hwx : strLtB w.name x.name = false := hmax x hxes hpx
  have hxw : x = w := nodupName_inj hnd hxes hw (strLtB_eq_of_not_lt hxmax hwx)
  subst hxw
  simp [find_session, h1, hx]

theorem find_session_tier3 {q dir : String} {es : List SessionEntry}
    {e : SessionEntry} {raw : String}
    (hno1 : ∀ x ∈ es, tier1P q x = false)
    (hno2 : ∀ x ∈ es, tier2P q x = false)
    (he : e ∈ es) (hraw : e.sessionId = some raw) (hs : pyStrip raw = q) :
    (find_session q dir (some es)).1 = some q := by
  have hperm := sortDesc_perm es
  have h1 : (sortDesc es).find? (tier1P q) = none := by
    rw [List.find?_eq_none]
    intro x hx
    simp [hno1 x (hperm.mem_iff.mp hx)]
  have h2 : (sortDesc es).find? (tier2P q) = none := by
    rw [List.find?_eq_none]
    intro x hx
    simp [hno2 x (hperm.mem_iff.mp hx)]
  have hsome : ((sortDesc es).find? (tier3P q)).isSome := by
    rw [List.find?_isSome]
    exact ⟨e, hperm.mem_iff.mpr he, by simp [tier3P, hraw, hs]⟩
  obtain ⟨x, hx⟩ := Option.isSome_iff_exists.mp hsome
  have hpx := List.find?_some hx
  simp only [find_session, h1, h2, hx]
  cases hsid : x.sessionId with
  | none => simp [tier3P, hsid] at hpx
  | some raw' =>
    have hq : pyStrip raw' = q := by
      simp only [tier3P, hsid, decide_eq_true_eq] at hpx
      exact hpx
    simp [hsid, hq]

/-- A raw log line is malformed when its stripped form is non-empty yet
fails to decode as JSON (Python: `json.loads` raises `JSONDecodeError`). -/
def malformedLine (l : String) : Bool :=
  if pyStrip l = "" then false else (json_loads? (pyStrip l)).isNone

theorem lineParts_malformed {l : String} (h : malformedLine l = true) :
    lineParts l = .ok [] := by
  unfold malformedLine at h
  unfold lineParts
  by_cases he : pyStrip l = ""
  · simp [he]
  · simp only [he, if_false] at h ⊢
    cases hj : json_loads? (pyStrip l) with
    | none => simp
    | some v => rw [hj] at h; simp at h

theorem docParts_filter_malformed :
    ∀ lines : List String,
      docParts lines = docParts (lines.filter (fun l => !malformedLine l)) := by
  intro lines
  induction lines with
  | nil => rfl
  | cons l ls ih =>
    cases h : malformedLine l with
    | true =>
      have hl := lineParts_malformed h
      simp only [List.filter_cons, h, Bool.not_true, if_false]
      simp only [docParts, hl]
      rw [ih]
      cases h2 : docParts (ls.filter (fun l => !malformedLine l)) <;> simp [h2]
    | false =>
      simp only [List.filter_cons, h, Bool.not_false, if_true]
      simp only [docParts]
      rw [ih]

theorem docParts_middle_nil {s : String} (h : lineParts s = .ok []) :
    ∀ (l1 l2 : List String), docParts (l1 ++ s :: l2) = docParts (l1 ++ l2) := by
  intro l1 l2
  induction l1 with
  | nil =>
    simp only [List.nil_append, docParts, h]
    cases docParts l2 <;> simp
  | cons a t ih =>
    simp only [List.cons_append, docParts, List.append_eq]
    rw [ih]

/-- A content block the assistant branch drops: a `text` block whose text
is empty or the `(no content)` placeholder, or a dict block of unknown
kind. -/
def unrenderable (b : Json) : Bool :=
  match b with
  | .obj bf =>
    if optEqStr (dictGet bf "type") "text" then
      jsonEqStr ((dictGet bf "text").getD (.str "")) "" ||
      jsonEqStr ((dictGet bf "text").getD (.str "")) "(no content)"
    else !(optEqStr (dictGet bf "type") "tool_use")
  | _ => false

theorem jsonEqStr_eq : ∀ {v : Json} {s : String},
    jsonEqStr v s = true → v = .str s := by
  intro v s h
  cases v with
  | str t =>
    simp only [jsonEqStr, decide_eq_true_eq] at h
    exact congrArg Json.str h
  | null => simp [jsonEqStr] at h
  | bool b => simp [jsonEqStr] at h
  | num n => simp [jsonEqStr] at h
  | arr xs => simp [jsonEqStr] at h
  | obj fs => simp [jsonEqStr] at h

theorem blockPart_unrenderable {b : Json} (h : unrenderable b = true) :
    blockPart b = .ok [] := by
  cases b with
  | obj bf =>
    simp only [unrenderable] at h
    simp only [blockPart]
    cases ht : optEqStr (dictGet bf "type") "text" with
    | true =>
      rw [ht, if_pos rfl] at h
      rw [if_pos rfl]
      rcases Bool.or_eq_true_iff.mp h with h' | h'
      · rw [jsonEqStr_eq h']
        rw [if_neg (by decide)]
      · rw [jsonEqStr_eq h']
        rw [if_neg (by decide)]
    | false =>
      rw [ht, if_neg (by simp)] at h
      rw [if_neg (by simp)]
      have h2 : optEqStr (dictGet bf "type") "tool_use" = false := by
        simpa using h
      rw [h2, if_neg (by simp)]
  | null => simp [unrenderable] at h
  | bool b => simp [unrenderable] at h
  | num n => simp [unrenderable] at h
  | str s => simp [unrenderable] at h
  | arr xs => simp [unrenderable] at h

theorem blockParts_all_unrenderable :
    ∀ {bs : List Json}, (∀ b ∈ bs, unrenderable b = true) →
      blockParts bs = .ok [] := by
  intro bs
  induction bs with
  | nil => intro _; rfl
  | cons b t ih =>
    intro h
    have hb := blockPart_unrenderable (h b (List.mem_cons_self b t))
    have ht := ih (fun x hx => h x (List.mem_cons_of_mem b hx))
    simp [blockParts, hb, ht]

theorem entryParts_all_unrenderable {ef mf : List (String × Json)}
    {blocks : List Json}
    (het : dictGet ef "type" = some (.str "assistant"))
    (hmsg : (dictGet ef "message").getD (.obj []) = .obj mf)
    (hcont : (dictGet mf "content").getD (.arr []) = .arr blocks)
    (hall : ∀ b ∈ blocks, unrenderable b = true) :
    entryParts (.obj ef) = .ok [] := by
  have hbp := blockParts_all_unrenderable hall
  simp only [entryParts, het]
  rw [if_neg (by decide), if_neg (by decide), if_pos (by decide), hmsg]
  simp only [hcont, hbp]
  simp

theorem any_key_isSome {fs : List (String × Json)} {k : String} :
    fs.any (fun kv => kv.1 = k) = (dictGet fs k).isSome := by
  induction fs with
  | nil => rfl
  | cons kv rest ih =>
    obtain ⟨k', v⟩ := kv
    by_cases h : k' = k
    · simp [dictGet, h]
    · simp [dictGet, h, ih]

theorem format_tool_use_ok {bf gs : List (String × Json)}
    (hinp : (dictGet bf "input").getD (.obj []) = .obj gs)
    (hcmd : dictGet gs "file_path" = none →
      ∀ v, dictGet gs "command" = some v → ∃ s, v = .str s) :
    ∃ line, format_tool_use (.obj bf) = .ok line := by
  simp only [format_tool_use, hinp, pyIn]
  cases hfp : gs.any (fun kv => kv.1 = "file_path") with
  | true =>
    have hs : (dictGet gs "file_path").isSome := by rw [← any_key_isSome]; exact hfp
    obtain ⟨v, hv⟩ := Option.isSome_iff_exists.mp hs
    simp [pyIndexStr, hv]
  | false =>
    have hnofp : dictGet gs "file_path" = none := by
      have h2 : gs.any (fun kv => kv.1 = "file_path") =
          (dictGet gs "file_path").isSome := any_key_isSome
      rw [hfp] at h2
      cases h3 : dictGet gs "file_path" with
      | none => rfl
      | some v => rw [h3] at h2; simp at h2
    cases hc : gs.any (fun kv => kv.1 = "command") with
    | true =>
      have hs : (dictGet gs "command").isSome := by rw [← any_key_isSome]; exact hc
      obtain ⟨v, hv⟩ := Option.isSome_iff_exists.mp hs
      obtain ⟨s, rfl⟩ := hcmd hnofp v hv
      by_cases hl : s.length > 80
      · simp [pyIndexStr, hv, pyLen, hl, pySliceStrOf]
      · simp [pyIndexStr, hv, pyLen, hl]
    | false =>
      cases hp : gs.any (fun kv => kv.1 = "pattern") with
      | true =>
        have hs : (dictGet gs "pattern").isSome := by rw [← any_key_isSome]; exact hp
        obtain ⟨v, hv⟩ := Option.isSome_iff_exists.mp hs
        simp [pyIndexStr, hv]
      | false =>
        cases hq : gs.any (fun kv => kv.1 = "query") with
        | true =>
          have hs : (dictGet gs "query").isSome := by rw [← any_key_isSome]; exact hq
          obtain ⟨v, hv⟩ := Option.isSome_iff_exists.mp hs
          simp [pyIndexStr, hv]
        | false => simp

theorem blockPart_tool_use {bf : List (String × Json)}
    (ht : optEqStr (dictGet bf "type") "tool_use" = true)
    {line : String} (hfmt : format_tool_use (.obj bf) = .ok line) :
    blockPart (.obj bf) = .ok ["\n" ++ line ++ "\n"] := by
  simp only [blockPart]
  cases hbt : dictGet bf "type" with
  | none => rw [hbt] at ht; simp [optEqStr] at ht
  | some v =>
    rw [hbt] at ht
    have hv : v = .str "tool_use" := jsonEqStr_eq (by simpa [optEqStr] using ht)
    subst hv
    rw [if_neg (by decide), if_pos (by decide), hfmt]

/-- A content block that cannot make the renderer raise: any non-dict,
text or unknown-kind block qualifies, and a `tool_use` block qualifies
when its `input` is a mapping whose `command` value (when it would be
selected) is a string. -/
def goodBlock (b : Json) : Prop :=
  ∀ bf, b = .obj bf → optEqStr (dictGet bf "type") "tool_use" = true →
    ∃ gs, (dictGet bf "input").getD (.obj []) = .obj gs ∧
      (dictGet gs "file_path" = none →
        ∀ v, dictGet gs "command" = some v → ∃ s, v = .str s)

theorem blockPart_ok_of_good {b : Json} (hb : goodBlock b) :
    ∃ ps, blockPart b = .ok ps := by
  cases b with
  | obj bf =>
    cases ht : optEqStr (dictGet bf "type") "tool_use" with
    | true =>
      obtain ⟨gs, hinp, hcmd⟩ := hb bf rfl ht
      obtain ⟨line, hline⟩ := format_tool_use_ok hinp hcmd
      exact ⟨_, blockPart_tool_use ht hline⟩
    | false =>
      simp only [blockPart]
      cases htx : optEqStr (dictGet bf "type") "text" with
      | true => rw [if_pos rfl]; exact ⟨_, rfl⟩
      | false =>
        rw [if_neg (by simp), ht, if_neg (by simp)]
        exact ⟨_, rfl⟩
  | null => exact ⟨_, rfl⟩
  | bool b => exact ⟨_, rfl⟩
  | num n => exact ⟨_, rfl⟩
  | str s => exact ⟨_, rfl⟩
  | arr xs => exact ⟨_, rfl⟩

theorem blockParts_ok_of_good :
    ∀ {bs : List Json}, (∀ b ∈ bs, goodBlock b) → ∃ ps, blockParts bs = .ok ps := by
  intro bs
  induction bs with
  | nil => intro _; exact ⟨[], rfl⟩
  | cons b t ih =>
    intro h
    obtain ⟨ps, hps⟩ := blockPart_ok_of_good (h b (List.mem_cons_self b t))
    obtain ⟨rest, hrest⟩ := ih (fun x hx => h x (List.mem_cons_of_mem b hx))
    exact ⟨ps ++ rest, by simp [blockParts, hps, hrest]⟩

theorem blockParts_nonempty_of_mem {b : Json} {qs : List String} :
    ∀ {bs : List Json} {ps : List String}, blockParts bs = .ok ps → b ∈ bs →
      blockPart b = .ok qs → qs ≠ [] → ps ≠ [] := by
  intro bs
  induction bs with
  | nil => intro ps _ hb; simp at hb
  | cons a t ih =>
    intro ps hps hb hbp hq
    simp only [blockParts] at hps
    cases ha : blockPart a with
    | error e => rw [ha] at hps; simp at hps
    | ok as' =>
      rw [ha] at hps
      cases hrest : blockParts t with
      | error e => rw [hrest] at hps; simp at hps
      | ok rest =>
        rw [hrest] at hps
        injection hps with hps
        subst hps
        rcases List.mem_cons.mp hb with rfl | hb'
        · rw [ha] at hbp
          injection hbp with hbp
          subst hbp
          simp [hq]
        · have := ih hrest hb' hbp hq
          simp [this]

theorem format_tool_use_file_path {nm : String} {fs : List (String × Json)}
    {v : Json} (hfp : dictGet fs "file_path" = some v) :
    format_tool_use (.obj [("name", .str nm), ("input", .obj fs)]) =
      .ok ("> Used tool: **" ++ nm ++ "**(`" ++ pyStr v ++ "`)") := by
  have hname : dictGet [("name", Json.str nm), ("input", Json.obj fs)] "name"
      = some (Json.str nm) := rfl
  have hinput : dictGet [("name", Json.str nm), ("input", Json.obj fs)] "input"
      = some (Json.obj fs) := rfl
  have hany : fs.any (fun kv => kv.1 = "file_path") = true := by
    rw [any_key_isSome, hfp]
    rfl
  simp [format_tool_use, hname, hinput, pyIn, hany, pyIndexStr, hfp, toolLine, pyStr]

theorem format_tool_use_command {nm c : String} {fs : List (String × Json)}
    (hfp : dictGet fs "file_path" = none)
    (hc : dictGet fs "command" = some (.str c)) :
    format_tool_use (.obj [("name", .str nm), ("input", .obj fs)]) =
      .ok ("> Used tool: **" ++ nm ++ "**(`" ++
        (if 80 < c.length then strTake c 80 else c) ++ "`)") := by
  have hname : dictGet [("name", Json.str nm), ("input", Json.obj fs)] "name"
      = some (Json.str nm) := rfl
  have hinput : dictGet [("name", Json.str nm), ("input", Json.obj fs)] "input"
      = some (Json.obj fs) := rfl
  have hany : fs.any (fun kv => kv.1 = "file_path") = false := by
    rw [any_key_isSome, hfp]
    rfl
  have hanyc : fs.any (fun kv => kv.1 = "command") = true := by
    rw [any_key_isSome, hc]
    rfl
  by_cases hl : 80 < c.length
  · simp [format_tool_use, hname, hinput, pyIn, hany, hanyc, pyIndexStr, hc, pyLen, hl,
      pySliceStrOf, toolLine, pyStr]
  · simp [format_tool_use, hname, hinput, pyIn, hany, hanyc, pyIndexStr, hc, pyLen, hl,
      toolLine, pyStr]

theorem format_tool_use_pattern {nm : String} {fs : List (String × Json)}
    {v : Json} (hfp : dictGet fs "file_path" = none)
    (hc : dictGet fs "command" = none)
    (hp : dictGet fs "pattern" = some v) :
    format_tool_use (.obj [("name", .str nm), ("input", .obj fs)]) =
      .ok ("> Used tool: **" ++ nm ++ "**(`" ++ pyStr v ++ "`)") := by
  have hname : dictGet [("name", Json.str nm), ("input", Json.obj fs)] "name"
      = some (Json.str nm) := rfl
  have hinput : dictGet [("name", Json.str nm), ("input", Json.obj fs)] "input"
      = some (Json.obj fs) := rfl
  have h1 : fs.any (fun kv => kv.1 = "file_path") = false := by
    rw [any_key_isSome, hfp]; rfl
  have h2 : fs.any (fun kv => kv.1 = "command") = false := by
    rw [any_key_isSome, hc]; rfl
  have h3 : fs.any (fun kv => kv.1 = "pattern") = true := by
    rw [any_key_isSome, hp]; rfl
  simp [format_tool_use, hname, hinput, pyIn, h1, h2, h3, pyIndexStr, hp, toolLine, pyStr]

theorem format_tool_use_query {nm : String} {fs : List (String × Json)}
    {v : Json} (hfp : dictGet fs "file_path" = none)
    (hc : dictGet fs "command" = none)
    (hp : dictGet fs "pattern" = none)
    (hq : dictGet fs "query" = some v) :
    format_tool_use (.obj [("name", .str nm), ("input", .obj fs)]) =
      .ok ("> Used tool: **" ++ nm ++ "**(`" ++ pyStr v ++ "`)") := by
  have hname : dictGet [("name", Json.str nm), ("input", Json.obj fs)] "name"
      = some (Json.str nm) := rfl
  have hinput : dictGet [("name", Json.str nm), ("input", Json.obj fs)] "input"
      = some (Json.obj fs) := rfl
  have h1 : fs.any (fun kv => kv.1 = "file_path") = false := by
    rw [any_key_isSome, hfp]; rfl
  have h2 : fs.any (fun kv => kv.1 = "command") = false := by
    rw [any_key_isSome, hc]; rfl
  have h3 : fs.any (fun kv => kv.1 = "pattern") = false := by
    rw [any_key_isSome, hp]; rfl
  have h4 : fs.any (fun kv => kv.1 = "query") = true := by
    rw [any_key_isSome, hq]; rfl
  simp [format_tool_use, hname, hinput, pyIn, h1, h2, h3, h4, pyIndexStr, hq, toolLine, pyStr]

theorem format_tool_use_bare {nm : String} {fs : List (String × Json)}
    (hfp : dictGet fs "file_path" = none)
    (hc : dictGet fs "command" = none)
    (hp : dictGet fs "pattern" = none)
    (hq : dictGet fs "query" = none) :
    format_tool_use (.obj [("name", .str nm), ("input", .obj fs)]) =
      .ok ("> Used tool: **" ++ nm ++ "**") := by
  have hname : dictGet [("name", Json.str nm), ("input", Json.obj fs)] "name"
      = some (Json.str nm) := rfl
  have hinput : dictGet [("name", Json.str nm), ("input", Json.obj fs)] "input"
      = some (Json.obj fs) := rfl
  have h1 : fs.any (fun kv => kv.1 = "file_path") = false := by
    rw [any_key_isSome, hfp]; rfl
  have h2 : fs.any (fun kv => kv.1 = "command") = false := by
    rw [any_key_isSome, hc]; rfl
  have h3 : fs.any (fun kv => kv.1 = "pattern") = false := by
    rw [any_key_isSome, hp]; rfl
  have h4 : fs.any (fun kv => kv.1 = "query") = false := by
    rw [any_key_isSome, hq]; rfl
  simp [format_tool_use, hname, hinput, pyIn, h1, h2, h3, h4, toolLineBare, pyStr]

theorem entryParts_assistant_tool {ef mf : List (String × Json)}
    {blocks : List Json} {b : Json} {bf : List (String × Json)}
    (het : dictGet ef "type" = some (.str "assistant"))
    (hmsg : (dictGet ef "message").getD (.obj []) = .obj mf)
    (hcont : (dictGet mf "content").getD (.arr []) = .arr blocks)
    (hgood : ∀ x ∈ blocks, goodBlock x)
    (hbmem : b ∈ blocks) (hb : b = .obj bf)
    (hbt : optEqStr (dictGet bf "type") "tool_use" = true) :
    ∃ bps, entryParts (.obj ef) =
      .ok (("\n## Assistant\n*" ++ entryTs ef ++ "*\n") :: bps) ∧ bps ≠ [] := by
  obtain ⟨ps, hps⟩ := blockParts_ok_of_good hgood
  obtain ⟨gs, hinp, hcmd⟩ := hgood b hbmem bf hb hbt
  obtain ⟨line, hline⟩ := format_tool_use_ok hinp hcmd
  have hbp : blockPart b = .ok ["\n" ++ line ++ "\n"] := by
    rw [hb]
    exact blockPart_tool_use hbt hline
  have hne : ps ≠ [] :=
    blockParts_nonempty_of_mem hps hbmem hbp (by simp)
  refine ⟨ps, ?_, hne⟩
  simp only [entryParts, het]
  rw [if_neg (by decide), if_neg (by decide), if_pos (by decide), hmsg]
  simp only [hcont, hps]
  simp [List.isEmpty_iff, hne]

/-- C1: rendering is insensitive to malformed lines: a line that fails
structural parsing (`json.loads` raises) contributes no output and no
failure, and the rendered result — success or error — of any log equals
that of the log with its malformed lines removed. -/
theorem c1_render_insensitive_to_malformed_lines :
    (∀ l, malformedLine l = true → lineParts l = .ok []) ∧
    (∀ lines : List String,
      jsonl_to_markdown lines =
        jsonl_to_markdown (lines.filter (fun l => !malformedLine l))) := by
  refine ⟨fun l h => lineParts_malformed h, fun lines => ?_⟩
  unfold jsonl_to_markdown
  rw [docParts_filter_malformed lines]

/-- Witness for C1: a concrete malformed line is skipped silently. -/
theorem c1_witness_malformed_line :
    malformedLine "\x7bnot json" = true ∧ lineParts "\x7bnot json" = .ok [] :=
  ⟨by decide, c1_render_insensitive_to_malformed_lines.1 "\x7bnot json" (by decide)⟩

/-- C2: the spec's two-line example log renders to a document with the
`## User` section (`Hello`) followed by the `## Assistant` section
(`Hi there!`), with both timestamps formatted as UTC. -/
theorem c2_two_line_example :
    jsonl_to_markdown
      ["\x7b\"type\":\"user\",\"message\":\x7b\"content\":\"Hello\"\x7d,\"timestamp\":\"2026-02-17T10:00:00.000Z\"\x7d",
       "\x7b\"type\":\"assistant\",\"message\":\x7b\"content\":[\x7b\"type\":\"text\",\"text\":\"Hi there!\"\x7d]\x7d,\"timestamp\":\"2026-02-17T10:00:01.000Z\"\x7d"] =
    .ok ("# Chat History\n\n\n## User\n*2026-02-17 10:00:00 UTC*\n\nHello\n\n\n## Assistant\n*2026-02-17 10:00:01 UTC*\n\n\nHi there!\n") := by
  rfl

/-- C4: `find_session` on a non-existent sessions root returns
`(None, None)` immediately, for every query, without raising. -/
theorem c4_find_session_absent_root :
    ∀ (query history_dir : String),
      find_session query history_dir none = (none, none) :=
  fun _ _ => rfl

/-- C3: the exact-name tier strictly precedes the substring tier — when
some subdirectory's name equals the query while the query is a proper
substring of another's name, the exact-name directory wins; and within
the substring tier, the matching directory with the reverse-lexicographic
greatest name wins. -/
theorem c3_exact_tier_precedes_substring :
    (∀ (q dir : String) (es : List SessionEntry),
      (∃ e, e ∈ es ∧ e.isDir = true ∧ e.name = q) →
      (∃ e2, e2 ∈ es ∧ e2.isDir = true ∧ strContains e2.name q = true ∧
        e2.name ≠ q) →
      (find_session q dir (some es)).2 = some (ospath_join dir q)) ∧
    (∀ (q dir : String) (es : List SessionEntry) (w : SessionEntry),
      (es.map SessionEntry.name).Nodup →
      (¬ ∃ e, e ∈ es ∧ e.isDir = true ∧ e.name = q) →
      w ∈ es → w.isDir = true → strContains w.name q = true →
      (∀ x ∈ es, x.isDir = true → strContains x.name q = true →
        strLtB w.name x.name = false) →
      find_session q dir (some es) = sidResult dir w) := by
  constructor
  · intro q dir es hex _
    exact find_session_snd_of_exact hex
  · intro q dir es w hnd hno hw hwd hws hmax
    apply find_session_tier2_max hnd ?_ hw ?_ ?_
    · intro e he
      cases h : tier1P q e with
      | false => rfl
      | true =>
        exfalso
        apply hno
        simp only [tier1P, Bool.and_eq_true, decide_eq_true_eq] at h
        exact ⟨e, he, h.1, h.2⟩
    · simp [tier2P, hwd, hws]
    · intro x hx hxp
      simp only [tier2P, Bool.and_eq_true] at hxp
      exact hmax x hx hxp.1 hxp.2

/-- Witness for C3: the exact-name directory beats a longer directory
that contains the query, and among two substring matches the
reverse-lexicographically greater name wins. -/
theorem c3_witness :
    (find_session "my-feature" "/h"
      (some [⟨"my-feature", true, some "id1"⟩,
             ⟨"2-my-feature-x", true, some "id2"⟩])).2 = some "/h/my-feature" ∧
    find_session "feat" "/h"
      (some [⟨"a-feat", true, none⟩, ⟨"b-feat", true, some "id3"⟩]) =
      sidResult "/h" ⟨"b-feat", true, some "id3"⟩ := by
  constructor
  · exact c3_exact_tier_precedes_substring.1 "my-feature" "/h" _
      ⟨⟨"my-feature", true, some "id1"⟩, by simp, rfl, rfl⟩
      ⟨⟨"2-my-feature-x", true, some "id2"⟩, by simp, rfl, by decide, by decide⟩
  · exact c3_exact_tier_precedes_substring.2 "feat" "/h" _
      ⟨"b-feat", true, some "id3"⟩ (by decide) (by decide) (by simp) rfl
      (by decide) (by decide)

/-- C8: missing resources are surfaced, never silently empty: rendering
an absent log file raises `FileNotFoundError` (not an empty document);
`find_session` on an absent root returns the absent/absent pair; and a
directory match without a marker file returns the distinguishable
partial result (absent identifier, present directory). -/
theorem c8_missing_resource_surfaced :
    (∀ (files : List (String × String)) (path : String),
      files.find? (fun f => f.1 = path) = none →
      jsonl_to_markdown_file files path = .error .fileNotFoundError) ∧
    (∀ q dir : String, find_session q dir none = (none, none)) ∧
    (∀ (q dir : String) (es : List SessionEntry) (e : SessionEntry),
      (es.map SessionEntry.name).Nodup → e ∈ es → e.isDir = true →
      e.name = q → e.sessionId = none →
      find_session q dir (some es) = (none, some (ospath_join dir q)) ∧
      (none, some (ospath_join dir q)) ≠
        ((none : Option String), (none : Option String))) := by
  refine ⟨?_, fun q dir => rfl, ?_⟩
  · intro files path h
    simp [jsonl_to_markdown_file, readFile, h]
  · intro q dir es e hnd he hd hn hsid
    refine ⟨?_, by simp⟩
    rw [find_session_exact hnd he hd hn]
    simp [sidResult, hsid, hn]

/-- Witness for C8: an absent log file, an absent root, and a marker-less
directory match, all on concrete inputs. -/
theorem c8_witness :
    jsonl_to_markdown_file [("/tmp/a.jsonl", "")] "/tmp/missing.jsonl" =
      .error .fileNotFoundError ∧
    find_session "x" "/h" none = (none, none) ∧
    (find_session "proj" "/h" (some [⟨"proj", true, none⟩]) =
      (none, some (ospath_join "/h" "proj")) ∧
     (none, some (ospath_join "/h" "proj")) ≠
       ((none : Option String), (none : Option String))) :=
  ⟨c8_missing_resource_surfaced.1 [("/tmp/a.jsonl", "")] "/tmp/missing.jsonl"
      (by decide),
   c8_missing_resource_surfaced.2.1 "x" "/h",
   c8_missing_resource_surfaced.2.2 "proj" "/h" [⟨"proj", true, none⟩]
      ⟨"proj", true, none⟩ (by decide) (by simp) rfl rfl rfl⟩

/-- C9: a returned identifier is always the stripped contents of some
entry's marker file (paired with that entry's directory), and the
identifier tier compares the stripped — not raw — contents with the
query, so a marker written with a trailing newline still resolves. -/
theorem c9_identifier_stripped :
    (∀ (q dir : String) (es : List SessionEntry) (sid : String)
        (d : Option String),
      find_session q dir (some es) = (some sid, d) →
      ∃ e raw, e ∈ es ∧ e.sessionId = some raw ∧ sid = pyStrip raw ∧
        d = some (ospath_join dir e.name)) ∧
    (∀ (q dir : String) (es : List SessionEntry) (e : SessionEntry)
        (raw : String),
      (∀ x ∈ es, tier1P q x = false) → (∀ x ∈ es, tier2P q x = false) →
      e ∈ es → e.sessionId = some raw → pyStrip raw = q →
      (find_session q dir (some es)).1 = some q) := by
  constructor
  · intro q dir es sid d h
    simp only [find_session] at h
    cases h1 : (sortDesc es).find? (tier1P q) with
    | some e =>
      simp only [h1] at h
      have hmem : e ∈ es :=
        (sortDesc_perm es).mem_iff.mp (List.mem_of_find?_eq_some h1)
      cases hsid : e.sessionId with
      | some raw =>
        simp only [sidResult, hsid] at h
        refine ⟨e, raw, hmem, hsid, ?_, ?_⟩
        · have := congrArg Prod.fst h
          simp only at this
          exact (Option.some.injEq .. ▸ this).symm
        · have := congrArg Prod.snd h
          simp only at this
          exact this.symm
      | none =>
        simp only [sidResult, hsid] at h
        have := congrArg Prod.fst h
        simp at this
    | none =>
      simp only [h1] at h
      cases h2 : (sortDesc es).find? (tier2P q) with
      | some e =>
        simp only [h2] at h
        have hmem : e ∈ es :=
          (sortDesc_perm es).mem_iff.mp (List.mem_of_find?_eq_some h2)
        cases hsid : e.sessionId with
        | some raw =>
          simp only [sidResult, hsid] at h
          refine ⟨e, raw, hmem, hsid, ?_, ?_⟩
          · have := congrArg Prod.fst h
            simp only at this
            exact (Option.some.injEq .. ▸ this).symm
          · have := congrArg Prod.snd h
            simp only at this
            exact this.symm
        | none =>
          simp only [sidResult, hsid] at h
          have := congrArg Prod.fst h
          simp at this
      | none =>
        simp only [h2] at h
        cases h3 : (sortDesc es).find? (tier3P q) with
        | some e =>
          simp only [h3] at h
          have hmem : e ∈ es :=
            (sortDesc_perm es).mem_iff.mp (List.mem_of_find?_eq_some h3)
          cases hsid : e.sessionId with
          | some raw =>
            simp only [hsid] at h
            refine ⟨e, raw, hmem, hsid, ?_, ?_⟩
            · have := congrArg Prod.fst h
              simp only at this
              exact (Option.some.injEq .. ▸ this).symm
            · have := congrArg Prod.snd h
              simp only at this
              exact this.symm
          | none =>
            simp only [hsid] at h
            have := congrArg Prod.fst h
            simp at this
        | none =>
          simp only [h3] at h
          have := congrArg Prod.fst h
          simp at this
  · intro q dir es e raw hno1 hno2 he hraw hs
    exact find_session_tier3 hno1 hno2 he hraw hs

/-- Witness for C9: a marker file `"uuid-1\n"` (trailing newline) still
resolves, and a directory-tier result returns the stripped contents. -/
theorem c9_witness :
    (∃ e raw, e ∈ [(⟨"proj-a", true, some "uuid-1\n"⟩ : SessionEntry)] ∧
      e.sessionId = some raw ∧ "uuid-1" = pyStrip raw ∧
      (some "/h/proj-a" : Option String) = some (ospath_join "/h" e.name)) ∧
    (find_session "uuid-1" "/h"
      (some [⟨"proj-a", true, some "uuid-1\n"⟩])).1 = some "uuid-1" :=
  ⟨c9_identifier_stripped.1 "proj-a" "/h" _ "uuid-1" (some "/h/proj-a")
      (by decide),
   c9_identifier_stripped.2 "uuid-1" "/h" _ ⟨"proj-a", true, some "uuid-1\n"⟩
      "uuid-1\n" (by decide) (by decide) (by simp) rfl (by decide)⟩

/-- C5: detail selection is deterministic and priority-ordered over the
argument mapping — `file_path` first (even when `command` is present),
then `command` (string value, truncated to 80), then `pattern`, then
`query`; with none of the four keys, only the action name is emitted,
with no detail parentheses. -/
theorem c5_tool_detail_priority :
    (∀ (nm : String) (fs : List (String × Json)) (v : Json),
      dictGet fs "file_path" = some v →
      format_tool_use (.obj [("name", .str nm), ("input", .obj fs)]) =
        .ok ("> Used tool: **" ++ nm ++ "**(`" ++ pyStr v ++ "`)")) ∧
    (∀ (nm c : String) (fs : List (String × Json)),
      dictGet fs "file_path" = none →
      dictGet fs "command" = some (.str c) →
      format_tool_use (.obj [("name", .str nm), ("input", .obj fs)]) =
        .ok ("> Used tool: **" ++ nm ++ "**(`" ++
          (if 80 < c.length then strTake c 80 else c) ++ "`)")) ∧
    (∀ (nm : String) (fs : List (String × Json)) (v : Json),
      dictGet fs "file_path" = none → dictGet fs "command" = none →
      dictGet fs "pattern" = some v →
      format_tool_use (.obj [("name", .str nm), ("input", .obj fs)]) =
        .ok ("> Used tool: **" ++ nm ++ "**(`" ++ pyStr v ++ "`)")) ∧
    (∀ (nm : String) (fs : List (String × Json)) (v : Json),
      dictGet fs "file_path" = none → dictGet fs "command" = none →
      dictGet fs "pattern" = none → dictGet fs "query" = some v →
      format_tool_use (.obj [("name", .str nm), ("input", .obj fs)]) =
        .ok ("> Used tool: **" ++ nm ++ "**(`" ++ pyStr v ++ "`)")) ∧
    (∀ (nm : String) (fs : List (String × Json)),
      dictGet fs "file_path" = none → dictGet fs "command" = none →
      dictGet fs "pattern" = none → dictGet fs "query" = none →
      format_tool_use (.obj [("name", .str nm), ("input", .obj fs)]) =
        .ok ("> Used tool: **" ++ nm ++ "**")) :=
  ⟨fun _ _ _ h => format_tool_use_file_path h,
   fun _ _ _ h1 h2 => format_tool_use_command h1 h2,
   fun _ _ _ h1 h2 h3 => format_tool_use_pattern h1 h2 h3,
   fun _ _ _ h1 h2 h3 h4 => format_tool_use_query h1 h2 h3 h4,
   fun _ _ h1 h2 h3 h4 => format_tool_use_bare h1 h2 h3 h4⟩

/-- Witness for C5: with both `file_path` and `command` present the
`file_path` value is shown, and with no recognised key only the name. -/
theorem c5_witness :
    format_tool_use (.obj [("name", .str "Read"), ("input", .obj
        [("file_path", .str "/tmp/foo.py"), ("command", .str "ls")])]) =
      .ok ("> Used tool: **Read**(`" ++ pyStr (.str "/tmp/foo.py") ++ "`)") ∧
    format_tool_use (.obj [("name", .str "Task"), ("input", .obj [])]) =
      .ok ("> Used tool: **Task**") :=
  ⟨c5_tool_detail_priority.1 "Read"
      [("file_path", .str "/tmp/foo.py"), ("command", .str "ls")]
      (.str "/tmp/foo.py") rfl,
   c5_tool_detail_priority.2.2.2.2 "Task" [] rfl rfl rfl rfl⟩

/-- C6: a string `command` detail longer than 80 characters is rendered
as exactly its first 80 characters with nothing appended; one of at most
80 characters is rendered exactly as-is. -/
theorem c6_command_truncation :
    ∀ (nm c : String) (fs : List (String × Json)),
      dictGet fs "file_path" = none →
      dictGet fs "command" = some (.str c) →
      (80 < c.length →
        format_tool_use (.obj [("name", .str nm), ("input", .obj fs)]) =
          .ok ("> Used tool: **" ++ nm ++ "**(`" ++ strTake c 80 ++ "`)")) ∧
      (c.length ≤ 80 →
        format_tool_use (.obj [("name", .str nm), ("input", .obj fs)]) =
          .ok ("> Used tool: **" ++ nm ++ "**(`" ++ c ++ "`)")) := by
  intro nm c fs hfp hc
  constructor
  · intro hl
    rw [format_tool_use_command hfp hc, if_pos hl]
  · intro hl
    rw [format_tool_use_command hfp hc, if_neg (by omega)]

/-- Witness for C6: an 81-character command is cut to its first 80
characters with no ellipsis; a short command is shown as-is. -/
theorem c6_witness :
    format_tool_use (.obj [("name", .str "Bash"), ("input", .obj
        [("command", .str "012345678901234567890123456789012345678901234567890123456789012345678901234567890")])]) =
      .ok ("> Used tool: **Bash**(`" ++
        strTake "012345678901234567890123456789012345678901234567890123456789012345678901234567890" 80 ++ "`)") ∧
    format_tool_use (.obj [("name", .str "Bash"), ("input", .obj
        [("command", .str "echo hi")])]) =
      .ok ("> Used tool: **Bash**(`" ++ "echo hi" ++ "`)") :=
  ⟨(c6_command_truncation "Bash"
      "012345678901234567890123456789012345678901234567890123456789012345678901234567890"
      [("command", .str "012345678901234567890123456789012345678901234567890123456789012345678901234567890")]
      rfl rfl).1 (by decide),
   (c6_command_truncation "Bash" "echo hi"
      [("command", .str "echo hi")] rfl rfl).2 (by decide)⟩

/-- C7: an `assistant` record whose content blocks are all empty or
`(no content)` text blocks or unknown-kind blocks contributes nothing:
its record-level output is empty and the rendered document equals that
of the log without the record's line. -/
theorem c7_unrenderable_assistant_no_output
    {l1 l2 : List String} {s : String} {ef mf : List (String × Json)}
    {blocks : List Json}
    (hdecode : json_loads? (pyStrip s) = some (.obj ef))
    (het : dictGet ef "type" = some (.str "assistant"))
    (hmsg : (dictGet ef "message").getD (.obj []) = .obj mf)
    (hcont : (dictGet mf "content").getD (.arr []) = .arr blocks)
    (hall : ∀ b ∈ blocks, unrenderable b = true) :
    entryParts (.obj ef) = .ok [] ∧
    jsonl_to_markdown (l1 ++ s :: l2) = jsonl_to_markdown (l1 ++ l2) := by
  have hep := entryParts_all_unrenderable het hmsg hcont hall
  refine ⟨hep, ?_⟩
  have hlp : lineParts s = .ok [] := by
    unfold lineParts
    by_cases he : pyStrip s = ""
    · simp [he]
    · simp [he, hdecode, hep]
  unfold jsonl_to_markdown
  rw [docParts_middle_nil hlp]

/-- Witness for C7: a concrete assistant record holding only a
`(no content)` text block and an unknown `thinking` block renders to
nothing, leaving the document identical to the empty log's. -/
theorem c7_witness :
    entryParts (.obj [("type", Json.str "assistant"),
      ("message", Json.obj [("content", Json.arr
        [Json.obj [("type", Json.str "text"), ("text", Json.str "(no content)")],
         Json.obj [("type", Json.str "thinking")]])])]) = .ok [] ∧
    jsonl_to_markdown ([] ++
      "\x7b\"type\":\"assistant\",\"message\":\x7b\"content\":[\x7b\"type\":\"text\",\"text\":\"(no content)\"\x7d,\x7b\"type\":\"thinking\"\x7d]\x7d\x7d" :: []) =
      jsonl_to_markdown ([] ++ []) :=
  c7_unrenderable_assistant_no_output
    rfl rfl rfl rfl (by decide)

/-- Counterexample for C10 as stated: this assistant record contains a
`tool_use` block, but rendering it raises `TypeError` (Python `len` on
the integer `command` value) instead of producing an `## Assistant`
section. -/
theorem c10_counterexample_command_type_error :
    entryParts (.obj [("type", Json.str "assistant"),
      ("message", Json.obj [("content", Json.arr
        [Json.obj [("type", Json.str "tool_use"),
                   ("input", Json.obj [("command", Json.num 5)])]])])]) =
      .error .typeError ∧
    jsonl_to_markdown
      ["\x7b\"type\":\"assistant\",\"message\":\x7b\"content\":[\x7b\"type\":\"tool_use\",\"input\":\x7b\"command\":5\x7d\x7d]\x7d\x7d"] =
      .error .typeError ∧
    ∀ ps, entryParts (.obj [("type", Json.str "assistant"),
      ("message", Json.obj [("content", Json.arr
        [Json.obj [("type", Json.str "tool_use"),
                   ("input", Json.obj [("command", Json.num 5)])]])])]) ≠
      .ok ps := by
  refine ⟨rfl, rfl, ?_⟩
  intro ps h
  rw [show entryParts (.obj [("type", Json.str "assistant"),
      ("message", Json.obj [("content", Json.arr
        [Json.obj [("type", Json.str "tool_use"),
                   ("input", Json.obj [("command", Json.num 5)])]])])]) =
      .error .typeError from rfl] at h
  exact Except.noConfusion h

/-- C10 (amended): an assistant record containing a `tool_use` block
produces an `## Assistant` section — provided every `tool_use` block's
`input` is a mapping whose `command` value, when it would be selected
(no `file_path` key), is a string; a summary line is emitted even for an
empty mapping (name only) and a missing name defaults to `Unknown`. -/
theorem c10_tool_use_section_amended {ef mf : List (String × Json)}
    {blocks : List Json} {b : Json} {bf : List (String × Json)}
    (het : dictGet ef "type" = some (.str "assistant"))
    (hmsg : (dictGet ef "message").getD (.obj []) = .obj mf)
    (hcont : (dictGet mf "content").getD (.arr []) = .arr blocks)
    (hgood : ∀ x ∈ blocks, goodBlock x)
    (hbmem : b ∈ blocks) (hb : b = .obj bf)
    (hbt : optEqStr (dictGet bf "type") "tool_use" = true) :
    (∃ bps, entryParts (.obj ef) =
      .ok (("\n## Assistant\n*" ++ entryTs ef ++ "*\n") :: bps) ∧ bps ≠ []) ∧
    format_tool_use (.obj []) = .ok "> Used tool: **Unknown**" ∧
    (∀ nm : String,
      format_tool_use (.obj [("name", .str nm), ("input", .obj [])]) =
        .ok ("> Used tool: **" ++ nm ++ "**")) := by
  refine ⟨entryParts_assistant_tool het hmsg hcont hgood hbmem hb hbt,
    rfl, ?_⟩
  intro nm
  exact format_tool_use_bare rfl rfl rfl rfl

/-- Witness for C10 (amended): a concrete assistant record whose only
block is a bare `tool_use` block (no name, no input) yields a section. -/
theorem c10_witness :
    (∃ bps, entryParts (.obj [("type", Json.str "assistant"),
        ("message", Json.obj [("content", Json.arr
          [Json.obj [("type", Json.str "tool_use")]])])]) =
      .ok (("\n## Assistant\n*" ++
        entryTs [("type", Json.str "assistant"),
          ("message", Json.obj [("content", Json.arr
            [Json.obj [("type", Json.str "tool_use")]])])] ++ "*\n") :: bps) ∧
        bps ≠ []) ∧
    format_tool_use (.obj []) = .ok "> Used tool: **Unknown**" ∧
    (∀ nm : String,
      format_tool_use (.obj [("name", .str nm), ("input", .obj [])]) =
        .ok ("> Used tool: **" ++ nm ++ "**")) := by
  refine c10_tool_use_section_amended rfl rfl rfl ?_ (List.mem_singleton.mpr rfl)
    rfl (by decide)
  intro x hx
  rw [List.mem_singleton] at hx
  subst hx
  intro bf hbf hbt
  have hbf' : bf = [("type", Json.str "tool_use")] := by
    injection hbf with h
    exact h.symm
  subst hbf'
  refine ⟨[], rfl, ?_⟩
  intro _ v hv
  simp [dictGet] at hv
